import Mathlib

/-!
Verification of the population-impact dataset pipeline (`fred.py`,
`prepare_gss_aggregates.py`).

The pipeline fetches several date-keyed economic series, outer-joins them on
date, folds in annual GSS aggregates by year, and appends a percent-change
column for every value column.  We embed the data model shallowly:

* a calendar date is a `Nat` encoded `YYYYMMDD` (so `year = date / 10000`);
* a possibly-missing float (`NaN`) is an `Option ℚ` (`none` = NaN/absent);
* a fetched series (one data frame with columns `date, col`) is a
  `List (Nat × Option ℚ)`;
* the merged wide table is a `List (Nat × List (Option ℚ))` — a date together
  with one cell per merged series, in series order.

Float arithmetic is modelled over `ℚ` with the IEEE special values made
explicit: `NaN` is `none`, and the `inf`/`-inf`/`NaN` results of dividing by a
zero previous value — which `build_and_save_csv` replaces by `NaN` — are mapped
directly to `none`.
-/

namespace ResearchMethods

abbrev Series := List (Nat × Option ℚ)

abbrev Table := List (Nat × List (Option ℚ))

/-! ### Derived metrics engine (`build_and_save_csv`, fred.py lines 458-469)

`merged[col].pct_change()` (pandas default `fill_method='pad'`) forward-fills
the column, divides by the shifted filled column and subtracts 1; the code then
multiplies by 100 and replaces `±inf` (previous value exactly 0) by `NaN`.
`pct_change_step prev cur` is the resulting cell given the forward-filled
previous value `prev` and forward-filled current value `cur`:
`NaN` operands propagate to `NaN`, a zero `prev` yields `NaN` (`0/0` is `NaN`,
`c/0` is `±inf`, replaced), otherwise the value is `(cur - prev)/prev * 100`. -/

def pct_change_step (prev cur : Option ℚ) : Option ℚ :=
  match prev, cur with
  | some p, some c => if p = 0 then none else some ((c - p) / p * 100)
  | _, _ => none

/-- One pass down the column carrying the forward-filled last value. -/
def pct_change_aux (prev : Option ℚ) : List (Option ℚ) → List (Option ℚ)
  | [] => []
  | v :: vs =>
    match v with
    | some c => pct_change_step prev (some c) :: pct_change_aux (some c) vs
    | none => pct_change_step prev prev :: pct_change_aux prev vs

/-- `merged[col].pct_change() * 100` with `±inf` replaced by `NaN`
(fred.py lines 466-469). -/
def pct_change (col : List (Option ℚ)) : List (Option ℚ) :=
  pct_change_aux none col

/-- The forward-filled value after consuming `l`, starting from `prev`:
the last non-`none` entry of `l`, else `prev`. -/
def ffill_last (prev : Option ℚ) : List (Option ℚ) → Option ℚ
  | [] => prev
  | v :: vs =>
    match v with
    | some c => ffill_last (some c) vs
    | none => ffill_last prev vs

theorem ffill_last_append (prev : Option ℚ) (l₁ l₂ : List (Option ℚ)) :
    ffill_last prev (l₁ ++ l₂) = ffill_last (ffill_last prev l₁) l₂ := by
  induction l₁ generalizing prev with
  | nil => rfl
  | cons v vs ih =>
    cases v <;> simp [ffill_last, ih]

theorem ffill_last_of_all_none (prev : Option ℚ) (l : List (Option ℚ))
    (h : ∀ v ∈ l, v = none) : ffill_last prev l = prev := by
  induction l with
  | nil => rfl
  | cons v vs ih =>
    have hv : v = none := h v (List.mem_cons_self v vs)
    subst hv
    exact ih fun w hw => h w (List.mem_cons_of_mem _ hw)

/-- Positional characterization of the percent-change column: the cell at
index `i` is `pct_change_step` of the forward-filled values just before and at
index `i`. -/
theorem pct_change_aux_getElem (l : List (Option ℚ)) (prev : Option ℚ)
    (i : Nat) (hi : i < l.length) :
    (pct_change_aux prev l)[i]? =
      some (pct_change_step (ffill_last prev (l.take i))
        (ffill_last prev (l.take (i + 1)))) := by
  induction l generalizing prev i with
  | nil => simp at hi
  | cons v vs ih =>
    cases i with
    | zero =>
      cases v <;> simp [pct_change_aux, ffill_last]
    | succ n =>
      have hn : n < vs.length := by simpa using hi
      cases v with
      | some c =>
        simpa [pct_change_aux, List.take_succ_cons, ffill_last] using ih (some c) n hn
      | none =>
        simpa [pct_change_aux, List.take_succ_cons, ffill_last] using ih prev n hn

theorem pct_change_getElem (l : List (Option ℚ)) (i : Nat) (hi : i < l.length) :
    (pct_change l)[i]? =
      some (pct_change_step (ffill_last none (l.take i))
        (ffill_last none (l.take (i + 1)))) :=
  pct_change_aux_getElem l none i hi

/-- If row `j` holds value `p` and every row strictly between `j` and `i` is
absent, then the forward-filled value entering row `i` is `p`. -/
theorem ffill_last_take_of_last_some (l : List (Option ℚ)) (i j : Nat) (p : ℚ)
    (hj : l[j]? = some (some p)) (hji : j < i)
    (hmid : ∀ k, j < k → k < i → l[k]? = some none) :
    ffill_last none (l.take i) = some p := by
  have hjl : j < l.length := by
    by_contra h
    rw [List.getElem?_eq_none (Nat.le_of_not_lt h)] at hj
    exact Option.noConfusion hj
  have hdecomp : l.take i = l.take (j + 1) ++ (l.drop (j + 1)).take (i - (j + 1)) := by
    have : i = (j + 1) + (i - (j + 1)) := by omega
    rw [← List.take_add]
    exact congrArg l.take this
  rw [hdecomp, ffill_last_append]
  have htake : ffill_last none (l.take (j + 1)) = some p := by
    rw [List.take_succ, hj]
    rw [ffill_last_append]
    simp [ffill_last]
  rw [htake]
  apply ffill_last_of_all_none
  intro v hv
  rw [List.mem_iff_getElem?] at hv
  obtain ⟨m, hm⟩ := hv
  rw [List.getElem?_take] at hm
  by_cases hmi : m < i - (j + 1)
  · rw [if_pos hmi, List.getElem?_drop] at hm
    have hk := hmid (j + 1 + m) (by omega) (by omega)
    rw [hk] at hm
    exact ((Option.some.injEq _ _).mp hm).symm
  · rw [if_neg hmi] at hm
    exact Option.noConfusion hm

/-- If every row before `i` is absent, the forward-filled value entering row
`i` is `NaN`. -/
theorem ffill_last_take_of_all_none (l : List (Option ℚ)) (i : Nat)
    (h : ∀ k, k < i → l[k]? = some none) :
    ffill_last none (l.take i) = none := by
  apply ffill_last_of_all_none
  intro v hv
  rw [List.mem_iff_getElem?] at hv
  obtain ⟨m, hm⟩ := hv
  rw [List.getElem?_take] at hm
  by_cases hmi : m < i
  · rw [if_pos hmi, h m hmi] at hm
    exact ((Option.some.injEq _ _).mp hm).symm
  · rw [if_neg hmi] at hm
    exact Option.noConfusion hm

theorem getElem?_some_lt {α : Type _} {l : List α} {n : Nat} {a : α}
    (h : l[n]? = some a) : n < l.length := by
  by_contra hc
  rw [List.getElem?_eq_none (Nat.le_of_not_lt hc)] at h
  exact Option.noConfusion h

theorem pct_change_step_none (x : Option ℚ) : pct_change_step none x = none := by
  cases x <;> rfl

theorem pct_change_step_zero (x : Option ℚ) : pct_change_step (some 0) x = none := by
  cases x <;> simp [pct_change_step]

/-- C1 counterexample: on the column `[10, absent, absent, 15]` the code does
not produce `[absent, absent, absent, 50]` — the interior absent rows get a
percent change of `0` (the pad-filled value compared with itself), because
pandas `pct_change()` forward-fills before differencing. -/
theorem C1_counterexample :
    pct_change [some 10, none, none, some 15] ≠ [none, none, none, some 50] := by
  norm_num [pct_change, pct_change_aux, pct_change_step]
  exact fun h => Option.noConfusion h

/-- C1 (amended): for every value column, the percent-change cell is absent at
any row with no prior non-absent value (in particular at the column's first
non-absent observation); at a non-absent observation at row `i` whose most
recent prior non-absent value is `p ≠ 0` at row `j` (absent rows in between
skipped) it equals `(value[i] - p) / p * 100`; but a row whose own value is
absent gets `0`, not an absent cell, so `[10, absent, absent, 15]` yields
`[absent, 0, 0, 50]`. -/
theorem C1_pct_change_amended (vs : List (Option ℚ)) (i : Nat) (c : ℚ)
    (hi : vs[i]? = some (some c)) :
    ((∀ k, k < i → vs[k]? = some none) → (pct_change vs)[i]? = some none) ∧
    (∀ j p, vs[j]? = some (some p) → j < i →
      (∀ k, j < k → k < i → vs[k]? = some none) → p ≠ 0 →
      (pct_change vs)[i]? = some (some ((c - p) / p * 100))) ∧
    pct_change [some 10, none, none, some 15] = [none, some 0, some 0, some 50] := by
  have hlen : i < vs.length := getElem?_some_lt hi
  have hcur : ffill_last none (vs.take (i + 1)) = some c := by
    rw [List.take_succ, hi, ffill_last_append]
    rfl
  refine ⟨?_, ?_, ?_⟩
  · intro h
    rw [pct_change_getElem vs i hlen, ffill_last_take_of_all_none vs i h,
      pct_change_step_none]
  · intro j p hj hji hmid hp
    rw [pct_change_getElem vs i hlen,
      ffill_last_take_of_last_some vs i j p hj hji hmid, hcur]
    simp [pct_change_step, hp]
  · norm_num [pct_change, pct_change_aux, pct_change_step]

/-- C1 witness: instantiating the amended theorem on the column
`[10, absent, absent, 15]` at row 3 with prior value 10 at row 0. -/
theorem C1_witness :
    (pct_change [some 10, none, none, some 15])[3]? =
      some (some ((15 - 10) / 10 * 100)) :=
  (C1_pct_change_amended [some 10, none, none, some 15] 3 15 rfl).2.1 0 10 rfl
    (by omega) (by intro k h1 h2; interval_cases k <;> rfl) (by norm_num)

/-- C4: for every value column and every row whose nearest prior non-absent
value is exactly `0`, the percent-change cell at that row is absent — the
`±inf`/`NaN` of the zero division is suppressed to an absent value (the
embedding is total, so no exception is possible). -/
theorem C4_zero_prior_yields_absent (vs : List (Option ℚ)) (i j : Nat)
    (hi : i < vs.length) (hj : vs[j]? = some (some 0)) (hji : j < i)
    (hmid : ∀ k, j < k → k < i → vs[k]? = some none) :
    (pct_change vs)[i]? = some none := by
  rw [pct_change_getElem vs i hi,
    ffill_last_take_of_last_some vs i j 0 hj hji hmid, pct_change_step_zero]

/-- C4 witness: the column `[0, 5]` has percent change `[absent, absent]` —
the jump from a zero value is suppressed. -/
theorem C4_witness : (pct_change [some 0, some 5])[1]? = some none :=
  C4_zero_prior_yields_absent [some 0, some 5] 1 0 (by norm_num) rfl
    (by omega) (by omega)

/-! ### Alignment merger (`build_and_save_csv`, fred.py lines 434-456)

`merged = pd.merge(merged, d, on="date", how="outer")` is iterated over the
list of date-keyed frames (`merged` starts as `None`, i.e. the empty table).
An outer merge on `date` keeps every existing row, appending the right frame's
cell at that date (`NaN` when the date is missing on the right), and appends
one new row for every right date not yet present, with `NaN` in all previously
accumulated columns. -/

/-- The right frame's cell contributed at date `d`: the value stored at `d`,
or `NaN` when `d` is not a date of the frame. -/
def joinCell (s : Series) (d : Nat) : Option ℚ :=
  match s.find? (fun p => p.1 == d) with
  | some p => p.2
  | none => none

def tableDates (t : Table) : List Nat := t.map Prod.fst

/-- One step of `pd.merge(acc, s, on="date", how="outer")`, where every row of
`acc` has `w` value cells. -/
def outer_merge (acc : Table) (w : Nat) (s : Series) : Table :=
  acc.map (fun r => (r.1, r.2 ++ [joinCell s r.1]))
    ++ (s.filter (fun p => !((tableDates acc).contains p.1))).map
      (fun p => (p.1, List.replicate w none ++ [p.2]))

def mergeAllAux (acc : Table) (w : Nat) : List Series → Table
  | [] => acc
  | s :: rest => mergeAllAux (outer_merge acc w s) (w + 1) rest

/-- The outer-join loop of fred.py lines 435-440 over the whole series list
(`merged is None` is the empty table). -/
def mergeAll (ss : List Series) : Table :=
  mergeAllAux [] 0 ss

theorem joinCell_of_not_mem (s : Series) (d : Nat)
    (h : d ∉ s.map Prod.fst) : joinCell s d = none := by
  rw [joinCell]
  have hfind : s.find? (fun p => p.1 == d) = none := by
    rw [List.find?_eq_none]
    intro p hp
    simp only [beq_iff_eq]
    intro hpd
    exact h (hpd ▸ List.mem_map_of_mem Prod.fst hp)
  rw [hfind]

theorem joinCell_of_mem (s : Series) (d : Nat) (v : Option ℚ)
    (hnd : (s.map Prod.fst).Nodup) (h : (d, v) ∈ s) : joinCell s d = v := by
  induction s with
  | nil => exact absurd h (List.not_mem_nil _)
  | cons q rest ih =>
    rcases List.mem_cons.mp h with hq | hrest
    · rw [joinCell, List.find?_cons_of_pos _ (by rw [← hq]; simp)]
      rw [← hq]
    · have hqd : q.1 ≠ d := by
        intro hqd
        have hmem : d ∈ rest.map Prod.fst := by
          have := List.mem_map_of_mem Prod.fst hrest
          simpa using this
        rw [List.map_cons, List.nodup_cons] at hnd
        exact hnd.1 (hqd ▸ hmem)
      rw [joinCell, List.find?_cons_of_neg _ (by simpa using hqd)]
      have hrec : joinCell rest d = v :=
        ih (List.nodup_cons.mp (by simpa using hnd)).2 hrest
      rw [joinCell] at hrec
      exact hrec

theorem mem_tableDates_outer_merge (acc : Table) (w : Nat) (s : Series)
    (d : Nat) :
    d ∈ tableDates (outer_merge acc w s) ↔
      d ∈ tableDates acc ∨ d ∈ s.map Prod.fst := by
  simp only [tableDates, outer_merge, List.map_append, List.map_map,
    List.mem_append, List.mem_map, Function.comp]
  constructor
  · rintro (⟨r, hr, hd⟩ | ⟨p, hp, hd⟩)
    · exact Or.inl ⟨r, hr, hd⟩
    · exact Or.inr ⟨p, (List.mem_filter.mp hp).1, hd⟩
  · rintro (⟨r, hr, hd⟩ | ⟨p, hp, hd⟩)
    · exact Or.inl ⟨r, hr, hd⟩
    · by_cases hin : d ∈ tableDates acc
      · exact Or.inl (by simpa [tableDates] using hin)
      · refine Or.inr ⟨p, List.mem_filter.mpr ⟨hp, ?_⟩, hd⟩
        have hnp : p.1 ∉ tableDates acc := hd ▸ hin
        simpa [List.contains, tableDates] using hnp

theorem contains_false_not_mem {l : List Nat} {a : Nat}
    (h : l.contains a = false) : a ∉ l := by
  intro hmem
  have hc : l.contains a = true := by
    simpa [List.contains] using hmem
  rw [h] at hc
  exact Bool.noConfusion hc

theorem not_mem_contains_false {l : List Nat} {a : Nat}
    (h : a ∉ l) : l.contains a = false := by
  simpa [List.contains] using h

theorem tableDates_outer_merge (acc : Table) (w : Nat) (s : Series) :
    tableDates (outer_merge acc w s) =
      tableDates acc
        ++ (s.filter (fun p => !((tableDates acc).contains p.1))).map Prod.fst := by
  rw [tableDates, outer_merge, List.map_append, List.map_map, List.map_map]
  congr 1

theorem nodup_tableDates_outer_merge (acc : Table) (w : Nat) (s : Series)
    (ha : (tableDates acc).Nodup) (hs : (s.map Prod.fst).Nodup) :
    (tableDates (outer_merge acc w s)).Nodup := by
  rw [tableDates_outer_merge]
  refine List.Nodup.append ha
    (List.Nodup.sublist (List.Sublist.map _ (List.filter_sublist s)) hs) ?_
  intro a hacc hfil
  obtain ⟨p, hpf, hpa⟩ := List.mem_map.mp hfil
  have hkeep := (List.mem_filter.mp hpf).2
  rw [Bool.not_eq_true'] at hkeep
  exact contains_false_not_mem hkeep (hpa ▸ hacc)

theorem mem_outer_merge (acc : Table) (w : Nat) (s : Series)
    (hs : (s.map Prod.fst).Nodup) (r : Nat × List (Option ℚ)) :
    r ∈ outer_merge acc w s ↔
      (∃ vs, (r.1, vs) ∈ acc ∧ r.2 = vs ++ [joinCell s r.1]) ∨
      (r.1 ∉ tableDates acc ∧ r.1 ∈ s.map Prod.fst ∧
        r.2 = List.replicate w none ++ [joinCell s r.1]) := by
  obtain ⟨d, vs2⟩ := r
  rw [outer_merge, List.mem_append]
  constructor
  · rintro (hl | hr)
    · obtain ⟨q, hq, heq⟩ := List.mem_map.mp hl
      obtain ⟨qd, qv⟩ := q
      have h1 : qd = d := congrArg Prod.fst heq
      have h2 : qv ++ [joinCell s qd] = vs2 := congrArg Prod.snd heq
      subst h1
      exact Or.inl ⟨qv, hq, h2.symm⟩
    · obtain ⟨p, hpf, heq⟩ := List.mem_map.mp hr
      obtain ⟨pd, pv⟩ := p
      obtain ⟨hps, hkeep⟩ := List.mem_filter.mp hpf
      have h1 : pd = d := congrArg Prod.fst heq
      have h2 : List.replicate w none ++ [pv] = vs2 := congrArg Prod.snd heq
      subst h1
      rw [Bool.not_eq_true'] at hkeep
      have hnm : pd ∉ tableDates acc := contains_false_not_mem hkeep
      have hjc : joinCell s pd = pv := joinCell_of_mem s pd pv hs hps
      exact Or.inr ⟨hnm, List.mem_map_of_mem Prod.fst hps, by rw [← h2, hjc]⟩
  · rintro (⟨vs, hvs, heq⟩ | ⟨hnew, hmem, heq⟩)
    · refine Or.inl (List.mem_map.mpr ⟨(d, vs), hvs, ?_⟩)
      have h2 : vs ++ [joinCell s d] = vs2 := heq.symm
      rw [Prod.ext_iff]
      exact ⟨rfl, h2⟩
    · obtain ⟨p, hps, hpd⟩ := List.mem_map.mp hmem
      obtain ⟨pd, pv⟩ := p
      have h1 : pd = d := hpd
      subst h1
      have hjc : joinCell s pd = pv := joinCell_of_mem s pd pv hs hps
      refine Or.inr (List.mem_map.mpr ⟨(pd, pv), List.mem_filter.mpr ⟨hps, ?_⟩, ?_⟩)
      · rw [Bool.not_eq_true']
        exact not_mem_contains_false hnew
      · rw [Prod.ext_iff]
        refine ⟨rfl, ?_⟩
        rw [heq, hjc]

theorem mem_tableDates_mergeAllAux (rest : List Series) :
    ∀ (acc : Table) (w d : Nat),
      d ∈ tableDates (mergeAllAux acc w rest) ↔
        d ∈ tableDates acc ∨ ∃ s ∈ rest, d ∈ s.map Prod.fst := by
  induction rest with
  | nil =>
    intro acc w d
    simp [mergeAllAux]
  | cons s rest ih =>
    intro acc w d
    rw [mergeAllAux, ih, mem_tableDates_outer_merge]
    constructor
    · rintro ((ha | hs) | ⟨t, ht, hd⟩)
      · exact Or.inl ha
      · exact Or.inr ⟨s, List.mem_cons_self s rest, hs⟩
      · exact Or.inr ⟨t, List.mem_cons_of_mem s ht, hd⟩
    · rintro (ha | ⟨t, ht, hd⟩)
      · exact Or.inl (Or.inl ha)
      · rcases List.mem_cons.mp ht with rfl | ht2
        · exact Or.inl (Or.inr hd)
        · exact Or.inr ⟨t, ht2, hd⟩

theorem nodup_tableDates_mergeAllAux (rest : List Series) :
    ∀ (acc : Table) (w : Nat), (tableDates acc).Nodup →
      (∀ s ∈ rest, (s.map Prod.fst).Nodup) →
      (tableDates (mergeAllAux acc w rest)).Nodup := by
  induction rest with
  | nil =>
    intro acc w ha _
    exact ha
  | cons s rest ih =>
    intro acc w ha hs
    exact ih _ _
      (nodup_tableDates_outer_merge acc w s ha (hs s (List.mem_cons_self s rest)))
      (fun t ht => hs t (List.mem_cons_of_mem s ht))

theorem mergeAllAux_row_spec (rest : List Series) :
    ∀ (acc : Table) (w : Nat),
      (∀ s ∈ rest, (s.map Prod.fst).Nodup) →
      ∀ r ∈ mergeAllAux acc w rest, ∃ init : List (Option ℚ),
        r.2 = init ++ rest.map (fun s => joinCell s r.1) ∧
        ((r.1, init) ∈ acc ∨
          (r.1 ∉ tableDates acc ∧ init = List.replicate w none)) := by
  induction rest with
  | nil =>
    intro acc w _ r hr
    exact ⟨r.2, by simp, Or.inl hr⟩
  | cons s rest ih =>
    intro acc w hnd r hr
    obtain ⟨init2, heq2, hcase2⟩ :=
      ih (outer_merge acc w s) (w + 1)
        (fun t ht => hnd t (List.mem_cons_of_mem s ht)) r hr
    rcases hcase2 with hmem2 | ⟨hnot2, hrep2⟩
    · rw [mem_outer_merge acc w s (hnd s (List.mem_cons_self s rest))] at hmem2
      rcases hmem2 with ⟨vs, hvs, hveq⟩ | ⟨hnot, _, hveq⟩
      · refine ⟨vs, ?_, Or.inl hvs⟩
        have hv : init2 = vs ++ [joinCell s r.1] := hveq
        rw [heq2, hv]
        simp
      · refine ⟨List.replicate w none, ?_, Or.inr ⟨hnot, rfl⟩⟩
        have hv : init2 = List.replicate w none ++ [joinCell s r.1] := hveq
        rw [heq2, hv]
        simp
    · have hnot : r.1 ∉ tableDates acc := fun hmem =>
        hnot2 ((mem_tableDates_outer_merge acc w s r.1).mpr (Or.inl hmem))
      have hnot_s : r.1 ∉ s.map Prod.fst := fun hmem =>
        hnot2 ((mem_tableDates_outer_merge acc w s r.1).mpr (Or.inr hmem))
      refine ⟨List.replicate w none, ?_, Or.inr ⟨hnot, rfl⟩⟩
      rw [heq2, hrep2]
      simp [List.map_cons, joinCell_of_not_mem s r.1 hnot_s,
        List.replicate_succ', List.append_assoc]

theorem mergeAll_row_eq (ss : List Series)
    (h : ∀ s ∈ ss, (s.map Prod.fst).Nodup) :
    ∀ r ∈ mergeAll ss, r.2 = ss.map (fun s => joinCell s r.1) := by
  intro r hr
  obtain ⟨init, heq, hcase⟩ := mergeAllAux_row_spec ss [] 0 h r hr
  rcases hcase with hmem | ⟨_, hrep⟩
  · exact absurd hmem (List.not_mem_nil _)
  · rw [heq, hrep]
    simp

/-- C2: the merged table's date set equals the union of the input series' date
sets (full outer join), with exactly one row per distinct date; a row's cell
for a series that lacks its date is absent; the worked example
S1 = {2020-01-01: 5, 2020-02-01: 6}, S2 = {2020-01-01: 100} yields rows
(2020-01-01: 5, 100) and (2020-02-01: 6, absent). -/
theorem C2_outer_join_completeness (ss : List Series)
    (h : ∀ s ∈ ss, (s.map Prod.fst).Nodup) :
    (tableDates (mergeAll ss)).Nodup ∧
    (∀ d, d ∈ tableDates (mergeAll ss) ↔ ∃ s ∈ ss, d ∈ s.map Prod.fst) ∧
    (∀ r ∈ mergeAll ss, r.2 = ss.map (fun s => joinCell s r.1)) ∧
    (∀ (s : Series) (d : Nat), d ∉ s.map Prod.fst → joinCell s d = none) ∧
    mergeAll [[(20200101, some 5), (20200201, some 6)], [(20200101, some 100)]] =
      [(20200101, [some 5, some 100]), (20200201, [some 6, none])] := by
  refine ⟨nodup_tableDates_mergeAllAux ss [] 0 (by simp [tableDates]) h, ?_,
    mergeAll_row_eq ss h, fun s d => joinCell_of_not_mem s d, ?_⟩
  · intro d
    rw [mergeAll, mem_tableDates_mergeAllAux]
    simp [tableDates]
  · rfl

/-- C2 witness: the theorem instantiated at the worked example. -/
theorem C2_witness :
    mergeAll [[(20200101, some 5), (20200201, some 6)], [(20200101, some 100)]] =
      [(20200101, [some 5, some 100]), (20200201, [some 6, none])] :=
  (C2_outer_join_completeness
    [[(20200101, some 5), (20200201, some 6)], [(20200101, some 100)]]
    (by decide)).2.2.2.2

/-! ### Sorting (`merged.sort_values("date")`, fred.py line 449) -/

def dateLE {α : Type _} (a b : Nat × α) : Prop := a.1 ≤ b.1

instance {α : Type _} : DecidableRel (@dateLE α) := fun a b => Nat.decLe a.1 b.1

instance {α : Type _} : IsTotal (Nat × α) dateLE := ⟨fun a b => Nat.le_total a.1 b.1⟩

instance {α : Type _} : IsTrans (Nat × α) dateLE := ⟨fun _ _ _ => Nat.le_trans⟩

/-- `df.sort_values("date")`: rows reordered ascending by the date key. -/
def sort_values {α : Type _} (t : List (Nat × α)) : List (Nat × α) :=
  List.insertionSort dateLE t

theorem sort_values_perm {α : Type _} (t : List (Nat × α)) :
    List.Perm (sort_values t) t :=
  List.perm_insertionSort dateLE t

theorem sort_values_sorted {α : Type _} (t : List (Nat × α)) :
    (sort_values t).Pairwise dateLE :=
  List.sorted_insertionSort dateLE t

theorem sort_values_pairwise_lt {α : Type _} (t : List (Nat × α))
    (hnd : (t.map Prod.fst).Nodup) :
    (sort_values t).Pairwise (fun a b => a.1 < b.1) := by
  have hnd2 : ((sort_values t).map Prod.fst).Nodup :=
    (((sort_values_perm t).map Prod.fst).nodup_iff).mpr hnd
  have hne : (sort_values t).Pairwise (fun a b => a.1 ≠ b.1) :=
    List.pairwise_map.mp hnd2
  have hand := (sort_values_sorted t).and hne
  exact hand.imp (fun hab => Nat.lt_of_le_of_ne hab.1 hab.2)

instance : IsAntisymm Nat (fun a b => a < b) :=
  ⟨fun a _ h1 h2 => absurd (Nat.lt_trans h1 h2) (Nat.lt_irrefl a)⟩

theorem nodup_tableDates_mergeAll (ss : List Series)
    (h : ∀ s ∈ ss, (s.map Prod.fst).Nodup) :
    (tableDates (mergeAll ss)).Nodup :=
  nodup_tableDates_mergeAllAux ss [] 0 (by simp [tableDates]) h

theorem mem_tableDates_mergeAll (ss : List Series) (d : Nat) :
    d ∈ tableDates (mergeAll ss) ↔ ∃ s ∈ ss, d ∈ s.map Prod.fst := by
  rw [mergeAll, mem_tableDates_mergeAllAux]
  simp [tableDates]

/-- C5: after the full join completes, the sorted merged table is strictly
ascending by date, for every list of input series; and the final date order
does not depend on the order in which the series were merged — permuting the
input list leaves the date column unchanged. -/
theorem C5_sorted_regardless_of_order (ss : List Series)
    (h : ∀ s ∈ ss, (s.map Prod.fst).Nodup) :
    (sort_values (mergeAll ss)).Pairwise (fun a b => a.1 < b.1) ∧
    ∀ ss₂, List.Perm ss₂ ss →
      tableDates (sort_values (mergeAll ss₂)) =
        tableDates (sort_values (mergeAll ss)) := by
  refine ⟨sort_values_pairwise_lt (mergeAll ss) (nodup_tableDates_mergeAll ss h), ?_⟩
  intro ss₂ hperm
  have h₂ : ∀ s ∈ ss₂, (s.map Prod.fst).Nodup := fun s hs => h s (hperm.mem_iff.mp hs)
  have hnd : (tableDates (sort_values (mergeAll ss))).Nodup := by
    rw [tableDates]
    exact ((sort_values_perm (mergeAll ss)).map Prod.fst).nodup_iff.mpr
      (nodup_tableDates_mergeAll ss h)
  have hnd₂ : (tableDates (sort_values (mergeAll ss₂))).Nodup := by
    rw [tableDates]
    exact ((sort_values_perm (mergeAll ss₂)).map Prod.fst).nodup_iff.mpr
      (nodup_tableDates_mergeAll ss₂ h₂)
  have hsort : (tableDates (sort_values (mergeAll ss))).Pairwise (fun a b => a < b) := by
    rw [tableDates]
    exact List.pairwise_map.mpr
      (sort_values_pairwise_lt (mergeAll ss) (nodup_tableDates_mergeAll ss h))
  have hsort₂ : (tableDates (sort_values (mergeAll ss₂))).Pairwise (fun a b => a < b) := by
    rw [tableDates]
    exact List.pairwise_map.mpr
      (sort_values_pairwise_lt (mergeAll ss₂) (nodup_tableDates_mergeAll ss₂ h₂))
  have hmemeq : ∀ d, d ∈ tableDates (sort_values (mergeAll ss₂)) ↔
      d ∈ tableDates (sort_values (mergeAll ss)) := by
    intro d
    rw [tableDates, tableDates,
      ((sort_values_perm (mergeAll ss₂)).map Prod.fst).mem_iff,
      ((sort_values_perm (mergeAll ss)).map Prod.fst).mem_iff]
    rw [show List.map Prod.fst (mergeAll ss₂) = tableDates (mergeAll ss₂) from rfl,
      show List.map Prod.fst (mergeAll ss) = tableDates (mergeAll ss) from rfl,
      mem_tableDates_mergeAll, mem_tableDates_mergeAll]
    constructor
    · rintro ⟨s, hs, hd⟩
      exact ⟨s, hperm.mem_iff.mp hs, hd⟩
    · rintro ⟨s, hs, hd⟩
      exact ⟨s, hperm.mem_iff.mpr hs, hd⟩
  exact List.eq_of_perm_of_sorted
    ((List.perm_ext_iff_of_nodup hnd₂ hnd).mpr hmemeq) hsort₂ hsort

/-- C5 witness: the theorem instantiated at the two-series example, merged in
reversed order. -/
theorem C5_witness :
    (sort_values (mergeAll
        [[(20200101, some 100)], [(20200101, some 5), (20200201, some 6)]])).Pairwise
      (fun a b => a.1 < b.1) ∧
    tableDates (sort_values (mergeAll
        [[(20200101, some 5), (20200201, some 6)], [(20200101, some 100)]])) =
      tableDates (sort_values (mergeAll
        [[(20200101, some 100)], [(20200101, some 5), (20200201, some 6)]])) :=
  ⟨(C5_sorted_regardless_of_order
      [[(20200101, some 100)], [(20200101, some 5), (20200201, some 6)]]
      (by decide)).1,
    (C5_sorted_regardless_of_order
      [[(20200101, some 100)], [(20200101, some 5), (20200201, some 6)]]
      (by decide)).2
      [[(20200101, some 5), (20200201, some 6)], [(20200101, some 100)]]
      (List.Perm.swap _ _ _)⟩

/-! ### GSS annual aggregation (`gss_aggregate_by_year`, fred.py lines 180-260,
and `prepare_gss_data`, prepare_gss_aggregates.py lines 36-123)

A GSS respondent record carries a year and the possibly-missing (`NaN`)
survey fields used by the indicator rules.  `(gss['union'] == 1)` compares a
float column against 1 — a `NaN` entry compares unequal, so the derived 0/1
flag is `0`, not missing; likewise for `wrkstat` and `degree >= 3`.  The
flags are then averaged per year (`groupby(year).agg('mean')`, which sorts
the distinct years ascending), and scaled by 100. -/

structure GSSRecord where
  year : Nat
  union : Option ℚ
  wrkstat : Option ℚ
  degree : Option ℚ
deriving DecidableEq

/-- `gss['union'] == 1` (fred.py line 205): `NaN == 1` is `False`. -/
def in_union (r : GSSRecord) : Bool := r.union == some 1

/-- `gss['wrkstat'] == 1` (fred.py line 206). -/
def working (r : GSSRecord) : Bool := r.wrkstat == some 1

/-- `gss.get('degree', 0) >= 3` (fred.py line 207): `NaN >= 3` is `False`. -/
def college (r : GSSRecord) : Bool :=
  match r.degree with
  | some v => decide (3 ≤ v)
  | none => false

/-- `.astype(float)` on a boolean column. -/
def indicator (b : Bool) : ℚ := if b then 1 else 0

/-- The distinct years, ascending (`groupby` sorts its keys). -/
def gss_years (recs : List GSSRecord) : List Nat :=
  List.insertionSort (fun a b => a ≤ b) (recs.map GSSRecord.year).dedup

/-- Mean of a (total) derived column over the records of year `y`. -/
def year_mean (f : GSSRecord → ℚ) (recs : List GSSRecord) (y : Nat) : ℚ :=
  ((recs.filter (fun r => r.year == y)).map f).sum /
    ((recs.filter (fun r => r.year == y)).length : ℚ)

/-- `gss.groupby(year)[[flags]].agg('mean')` scaled by 100
(fred.py lines 209-225): one row per distinct year of the microdata. -/
def gss_annual (recs : List GSSRecord) : List (Nat × ℚ × ℚ × ℚ) :=
  (gss_years recs).map (fun y =>
    (y, 100 * year_mean (fun r => indicator (in_union r)) recs y,
      100 * year_mean (fun r => indicator (working r)) recs y,
      100 * year_mean (fun r => indicator (college r)) recs y))

def yearAliases : List String := ["year", "YEAR", "Year"]

/-- The year-column probe of fred.py lines 195-199. -/
def findYearCol (cols : List String) : Option String :=
  yearAliases.find? (fun c => cols.contains c)

/-- `gss_aggregate_by_year`: aggregates when a year column exists; the
`ValueError` raised when none does is caught by the `except` handler, which
returns an empty frame (fred.py lines 201-202 and 255-260). -/
def gss_aggregate_by_year (cols : List String) (recs : List GSSRecord) :
    List (Nat × ℚ × ℚ × ℚ) :=
  match findYearCol cols with
  | some _ => gss_annual recs
  | none => []

/-- `groupby('year').agg('mean')` on a raw (possibly-`NaN`) column skips
missing entries and yields `NaN` for an all-missing group
(`gss_avg_income`, prepare_gss_aggregates.py lines 90-105). -/
def mean_skipna (vals : List (Option ℚ)) : Option ℚ :=
  let g := vals.filterMap id
  if g.isEmpty then none else some (g.sum / (g.length : ℚ))

def gss_avg_income (recs : List (Nat × Option ℚ)) (y : Nat) : Option ℚ :=
  mean_skipna ((recs.filter (fun r => r.1 == y)).map Prod.snd)

theorem sum_map_indicator (p : GSSRecord → Bool) (l : List GSSRecord) :
    (l.map (fun r => indicator (p r))).sum = (l.countP p : ℚ) := by
  induction l with
  | nil => simp
  | cons r rest ih =>
    rw [List.map_cons, List.sum_cons, ih, List.countP_cons]
    cases hp : p r
    · simp [indicator, hp]
    · simp only [indicator, hp, if_true]
      push_cast
      ring

theorem year_mean_indicator (p : GSSRecord → Bool) (recs : List GSSRecord)
    (y : Nat) :
    year_mean (fun r => indicator (p r)) recs y =
      ((recs.filter (fun r => r.year == y)).countP p : ℚ) /
        ((recs.filter (fun r => r.year == y)).length : ℚ) := by
  rw [year_mean, sum_map_indicator]

/-- C3 counterexample: a single 2020 record whose `union`, `wrkstat` and
`degree` fields are all missing contributes zero records with a non-missing
value to every indicator, yet the code emits `0.0` for all three aggregates
of 2020 (the aggregate column cannot even hold an absent value), not an
absent aggregate. -/
theorem C3_counterexample :
    gss_annual [⟨2020, none, none, none⟩] = [(2020, 0, 0, 0)] := by
  norm_num [gss_annual, gss_years, year_mean, in_union, working, college,
    indicator, List.dedup, List.insertionSort, List.filter]
  exact fun h => Option.noConfusion h

/-- C3 (amended): the binary GSS indicators coerce a missing field to `0`
(counted as not-in-category) and average over all records of the year, so the
aggregate for year `y` is `100 · (matching records) / (all records of y)` and
an all-missing year yields `0`, not an absent aggregate; only the continuous
income indicator of `prepare_gss_data` averages over the records with a
non-missing value and yields an absent aggregate for a year with zero
contributing records. -/
theorem C3_mean_counts_missing_as_zero (recs : List GSSRecord) (y : Nat)
    (hy : y ∈ gss_years recs) :
    (y, 100 * year_mean (fun r => indicator (in_union r)) recs y,
      100 * year_mean (fun r => indicator (working r)) recs y,
      100 * year_mean (fun r => indicator (college r)) recs y) ∈ gss_annual recs ∧
    100 * year_mean (fun r => indicator (in_union r)) recs y =
      100 * ((recs.filter (fun r => r.year == y)).countP in_union : ℚ) /
        ((recs.filter (fun r => r.year == y)).length : ℚ) ∧
    100 * year_mean (fun r => indicator (working r)) recs y =
      100 * ((recs.filter (fun r => r.year == y)).countP working : ℚ) /
        ((recs.filter (fun r => r.year == y)).length : ℚ) ∧
    100 * year_mean (fun r => indicator (college r)) recs y =
      100 * ((recs.filter (fun r => r.year == y)).countP college : ℚ) /
        ((recs.filter (fun r => r.year == y)).length : ℚ) ∧
    ∀ (ircs : List (Nat × Option ℚ)) (z : Nat),
      (∀ p ∈ ircs, p.1 = z → p.2 = none) → gss_avg_income ircs z = none := by
  refine ⟨List.mem_map_of_mem _ hy, ?_, ?_, ?_, ?_⟩
  · rw [year_mean_indicator]
    ring
  · rw [year_mean_indicator]
    ring
  · rw [year_mean_indicator]
    ring
  · intro ircs z hz
    rw [gss_avg_income, mean_skipna]
    have hnil : ((ircs.filter (fun r => r.1 == z)).map Prod.snd).filterMap id = [] := by
      rw [List.filterMap_eq_nil_iff]
      intro v hv
      obtain ⟨p, hp, hpv⟩ := List.mem_map.mp hv
      obtain ⟨hpm, hpz⟩ := List.mem_filter.mp hp
      have : p.2 = none := hz p hpm (by simpa using hpz)
      rw [← hpv, this]
      rfl
    rw [hnil]
    rfl

/-- C3 witness: the theorem instantiated at the all-missing 2020 microdata
set. -/
theorem C3_witness :
    (2020, 100 * year_mean (fun r => indicator (in_union r))
        [⟨2020, none, none, none⟩] 2020,
      100 * year_mean (fun r => indicator (working r))
        [⟨2020, none, none, none⟩] 2020,
      100 * year_mean (fun r => indicator (college r))
        [⟨2020, none, none, none⟩] 2020) ∈
      gss_annual [⟨2020, none, none, none⟩] :=
  (C3_mean_counts_missing_as_zero [⟨2020, none, none, none⟩] 2020 (by decide)).1

/-! ### Year derivation, annual join and pipeline control flow
(`build_and_save_csv`, fred.py lines 434-456 and 518-531) -/

/-- `merged["date"].dt.year` for a `YYYYMMDD`-encoded date. -/
def yearOf (d : Nat) : Nat := d / 10000

/-- A merged row after `merged["year"] = ...`: date, derived year, cells. -/
abbrev YearRow := Nat × Nat × List (Option ℚ)

def add_year (t : Table) : List YearRow :=
  t.map (fun r => (r.1, yearOf r.1, r.2))

theorem find?_fst_eq_of_nodup {β : Type _} (l : List (Nat × β)) (d : Nat)
    (v : β) (hnd : (l.map Prod.fst).Nodup) (h : (d, v) ∈ l) :
    l.find? (fun p => p.1 == d) = some (d, v) := by
  induction l with
  | nil => exact absurd h (List.not_mem_nil _)
  | cons q rest ih =>
    rcases List.mem_cons.mp h with hq | hrest
    · rw [← hq, List.find?_cons_of_pos _ (by simp)]
    · have hqd : q.1 ≠ d := by
        intro hqd
        have hmem : d ∈ rest.map Prod.fst := by
          have := List.mem_map_of_mem Prod.fst hrest
          simpa using this
        rw [List.map_cons, List.nodup_cons] at hnd
        exact hnd.1 (hqd ▸ hmem)
      rw [List.find?_cons_of_neg _ (by simpa using hqd)]
      exact ih (List.nodup_cons.mp (by simpa using hnd)).2 hrest

/-- The three GSS cells a merged row receives for its year in the left join
`pd.merge(merged, gss_data, on="year", how="left")`: the matching annual
row's values, or `NaN`s when the year has no annual row. -/
def gssCells (g : List (Nat × ℚ × ℚ × ℚ)) (y : Nat) : List (Option ℚ) :=
  match g.find? (fun p => p.1 == y) with
  | some p => [some p.2.1, some p.2.2.1, some p.2.2.2]
  | none => [none, none, none]

/-- The left join on `year` (fred.py line 456): one output row per merged
row, in order; annual rows whose year matches no merged row contribute
nothing. -/
def merge_gss_on_year (rows : List YearRow) (g : List (Nat × ℚ × ℚ × ℚ)) :
    List YearRow :=
  rows.map (fun r => (r.1, r.2.1, r.2.2 ++ gssCells g r.2.1))

/-- The merge-and-join pipeline of `build_and_save_csv`: outer-join all
date-keyed series; abort with exit code 2 when the result is empty
(fred.py lines 442-444); otherwise derive `year`, sort by date, and left-join
the GSS annual table when it is nonempty (lines 446-456). -/
def build_and_save_csv (ss : List Series) (cols : List String)
    (recs : List GSSRecord) : Except Nat (List YearRow) :=
  let gss := gss_aggregate_by_year cols recs
  let merged := mergeAll ss
  if merged = [] then Except.error 2
  else
    let rows := sort_values (add_year merged)
    if gss.isEmpty then Except.ok rows
    else Except.ok (merge_gss_on_year rows gss)

/-- C6: the annual table folds into the merged table by a left join on the
year derived from each row's date: every output row keeps its input row's
date and derived year and appends exactly the cells `gssCells g year` (so all
rows of one year receive the same annual values — broadcast); a year present
in the annual table is looked up by match, a year absent from it yields three
absent cells, and the join adds no rows for annual years that match no
date-row. -/
theorem C6_annual_left_join (t : Table) (g : List (Nat × ℚ × ℚ × ℚ))
    (hg : (g.map Prod.fst).Nodup) :
    (∀ r ∈ merge_gss_on_year (sort_values (add_year t)) g,
      r.2.1 = yearOf r.1) ∧
    (∀ r ∈ merge_gss_on_year (sort_values (add_year t)) g,
      ∃ vs, (r.1, r.2.1, vs) ∈ sort_values (add_year t) ∧
        r.2.2 = vs ++ gssCells g r.2.1) ∧
    (∀ y a b c, (y, a, b, c) ∈ g → gssCells g y = [some a, some b, some c]) ∧
    (∀ y, (∀ p ∈ g, p.1 ≠ y) → gssCells g y = [none, none, none]) ∧
    (merge_gss_on_year (sort_values (add_year t)) g).length =
      (sort_values (add_year t)).length := by
  refine ⟨?_, ?_, ?_, ?_, List.length_map _ _⟩
  · intro r hr
    obtain ⟨q, hq, hqe⟩ := List.mem_map.mp hr
    have hq2 : q ∈ add_year t := (sort_values_perm (add_year t)).mem_iff.mp hq
    obtain ⟨p, _, hpe⟩ := List.mem_map.mp hq2
    obtain ⟨qd, qy, qv⟩ := q
    have h1 : qd = r.1 := congrArg Prod.fst hqe
    have h2 : qy = r.2.1 := congrArg (fun x => x.2.1) hqe
    have h3 : qy = yearOf qd := by
      have e1 : p.1 = qd := congrArg Prod.fst hpe
      have e2 : yearOf p.1 = qy := congrArg (fun x => x.2.1) hpe
      rw [← e2, e1]
    rw [← h1, ← h2, h3]
  · intro r hr
    obtain ⟨q, hq, hqe⟩ := List.mem_map.mp hr
    obtain ⟨qd, qy, qv⟩ := q
    have h1 : qd = r.1 := congrArg Prod.fst hqe
    have h2 : qy = r.2.1 := congrArg (fun x => x.2.1) hqe
    have h3 : qv ++ gssCells g qy = r.2.2 := congrArg (fun x => x.2.2) hqe
    subst h1
    subst h2
    exact ⟨qv, hq, h3.symm⟩
  · intro y a b c hmem
    rw [gssCells, find?_fst_eq_of_nodup g y (a, b, c) hg hmem]
  · intro y hy
    rw [gssCells, List.find?_eq_none.mpr]
    intro p hp
    simpa using hy p hp

/-- C6 witness: a monthly row dated 2020-01-15 joined against the annual
table `{2020 ↦ (1, 2, 3)}`. -/
theorem C6_witness :
    gssCells [(2020, 1, 2, 3)] 2020 = [some 1, some 2, some 3] :=
  (C6_annual_left_join [(20200115, [some 5])] [(2020, 1, 2, 3)]
    (by decide)).2.2.1 2020 1 2 3 (List.mem_singleton.mpr rfl)

theorem outer_merge_eq_nil_iff (acc : Table) (w : Nat) (s : Series) :
    outer_merge acc w s = [] ↔ acc = [] ∧ s = [] := by
  constructor
  · intro h
    rw [outer_merge, List.append_eq_nil] at h
    have ha : acc = [] := by
      have := h.1
      cases acc with
      | nil => rfl
      | cons r rest => exact absurd this (by simp)
    refine ⟨ha, ?_⟩
    subst ha
    have hf := h.2
    cases s with
    | nil => rfl
    | cons p ps =>
      exfalso
      simp [tableDates, List.filter] at hf
  · rintro ⟨rfl, rfl⟩
    rfl

theorem mergeAllAux_eq_nil_iff (rest : List Series) :
    ∀ (acc : Table) (w : Nat),
      mergeAllAux acc w rest = [] ↔ acc = [] ∧ ∀ s ∈ rest, s = [] := by
  induction rest with
  | nil =>
    intro acc w
    simp [mergeAllAux]
  | cons s rest ih =>
    intro acc w
    rw [mergeAllAux, ih, outer_merge_eq_nil_iff]
    constructor
    · rintro ⟨⟨ha, hs⟩, hrest⟩
      refine ⟨ha, ?_⟩
      intro t ht
      rcases List.mem_cons.mp ht with rfl | ht2
      · exact hs
      · exact hrest t ht2
    · rintro ⟨ha, hall⟩
      exact ⟨⟨ha, hall s (List.mem_cons_self s rest)⟩,
        fun t ht => hall t (List.mem_cons_of_mem s ht)⟩

theorem mergeAll_eq_nil_iff (ss : List Series) :
    mergeAll ss = [] ↔ ∀ s ∈ ss, s = [] := by
  rw [mergeAll, mergeAllAux_eq_nil_iff]
  simp

/-- C7: when every fetched source contributes an empty series the run is
fatal — `build_and_save_csv` reports exit status 2 and produces no output
table; whereas as long as any one source is nonempty the run continues and
produces an output, however many other sources are empty. -/
theorem C7_total_failure_is_fatal (ss : List Series) (cols : List String)
    (recs : List GSSRecord) :
    ((∀ s ∈ ss, s = []) →
      build_and_save_csv ss cols recs = Except.error 2) ∧
    ((∃ s ∈ ss, s ≠ []) →
      ∃ out, build_and_save_csv ss cols recs = Except.ok out) := by
  constructor
  · intro h
    rw [build_and_save_csv]
    rw [if_pos ((mergeAll_eq_nil_iff ss).mpr h)]
  · rintro ⟨s, hs, hne⟩
    have hmerged : mergeAll ss ≠ [] := by
      intro hnil
      exact hne ((mergeAll_eq_nil_iff ss).mp hnil s hs)
    rw [build_and_save_csv]
    rw [if_neg hmerged]
    by_cases hg : (gss_aggregate_by_year cols recs).isEmpty
    · rw [if_pos hg]
      exact ⟨_, rfl⟩
    · rw [if_neg hg]
      exact ⟨_, rfl⟩

/-- C7 witness: two empty sources abort with status 2; one nonempty source
among an empty one still produces an output. -/
theorem C7_witness :
    build_and_save_csv [[], []] [] [] = Except.error 2 ∧
    ∃ out, build_and_save_csv [[(20200101, some 1)], []] [] [] =
      Except.ok out :=
  ⟨(C7_total_failure_is_fatal [[], []] [] []).1 (by decide),
    (C7_total_failure_is_fatal [[(20200101, some 1)], []] [] []).2
      ⟨[(20200101, some 1)], List.mem_cons_self _ _, by decide⟩⟩

/-- C8: when the microdata has none of the accepted year-column aliases, the
failure is local to that source: `gss_aggregate_by_year` returns the empty
table (the raised `ValueError` is caught), the pipeline result is identical
to a run with no GSS source at all, and the run still completes with an
output built from the remaining sources. -/
theorem C8_missing_year_col_skips_source (ss : List Series)
    (cols : List String) (recs : List GSSRecord)
    (hcol : findYearCol cols = none) (hm : mergeAll ss ≠ []) :
    gss_aggregate_by_year cols recs = [] ∧
    build_and_save_csv ss cols recs = build_and_save_csv ss [] recs ∧
    ∃ out, build_and_save_csv ss cols recs = Except.ok out := by
  have hagg : gss_aggregate_by_year cols recs = [] := by
    rw [gss_aggregate_by_year, hcol]
  have hagg2 : gss_aggregate_by_year [] recs = [] := rfl
  refine ⟨hagg, ?_, ?_⟩
  · rw [build_and_save_csv, build_and_save_csv, hagg, hagg2]
  · rw [build_and_save_csv, hagg]
    rw [if_neg hm]
    exact ⟨_, rfl⟩

/-- C8 witness: a microdata frame exposing only an `id` column is skipped
while the FRED series still produce a merged output. -/
theorem C8_witness :
    gss_aggregate_by_year ["id"] [⟨2020, some 1, none, none⟩] = [] ∧
    build_and_save_csv [[(20200101, some 1)]] ["id"]
        [⟨2020, some 1, none, none⟩] =
      build_and_save_csv [[(20200101, some 1)]] []
        [⟨2020, some 1, none, none⟩] ∧
    ∃ out, build_and_save_csv [[(20200101, some 1)]] ["id"]
        [⟨2020, some 1, none, none⟩] = Except.ok out :=
  C8_missing_year_col_skips_source [[(20200101, some 1)]] ["id"]
    [⟨2020, some 1, none, none⟩] (by decide) (by decide)

/-! ### Series normalizers (`fred_series_df` lines 159-173,
`census_poverty_rate_df` lines 328-329)

`fred_series_df` builds its rows by appending one `(date, value)` pair per
fetched observation whose date is present — unparsable values become `NaN`
(modelled by taking the value pre-parsed as `Option ℚ`) — and performs no
deduplication.  `census_poverty_rate_df` runs
`df.drop_duplicates(subset=["date"])` (which keeps the first occurrence) and
then `df.sort_values("date")`. -/

def fred_series_rows (obs : List (Option Nat × Option ℚ)) : Series :=
  obs.filterMap (fun p =>
    match p.1 with
    | some d => some (d, p.2)
    | none => none)

def drop_duplicates_aux (seen : List Nat) : Series → Series
  | [] => []
  | p :: rest =>
    if p.1 ∈ seen then drop_duplicates_aux seen rest
    else p :: drop_duplicates_aux (p.1 :: seen) rest

/-- `df.drop_duplicates(subset=["date"])` with the default first-occurrence
keep policy. -/
def drop_duplicates_date (s : Series) : Series :=
  drop_duplicates_aux [] s

/-- The census normalization pair: dedup by date, then sort by date. -/
def census_normalize (recs : Series) : Series :=
  sort_values (drop_duplicates_date recs)

theorem mem_drop_duplicates_aux (l : Series) :
    ∀ (seen : List Nat) (p : Nat × Option ℚ),
      p ∈ drop_duplicates_aux seen l ↔
        p.1 ∉ seen ∧ l.find? (fun q => q.1 == p.1) = some p := by
  induction l with
  | nil =>
    intro seen p
    simp [drop_duplicates_aux]
  | cons q rest ih =>
    intro seen p
    rw [drop_duplicates_aux]
    by_cases hq : q.1 ∈ seen
    · rw [if_pos hq, ih]
      constructor
      · rintro ⟨hns, hfind⟩
        have hqp : q.1 ≠ p.1 := fun he => hns (he ▸ hq)
        rw [List.find?_cons_of_neg _ (by simpa using hqp)]
        exact ⟨hns, hfind⟩
      · rintro ⟨hns, hfind⟩
        have hqp : q.1 ≠ p.1 := fun he => hns (he ▸ hq)
        rw [List.find?_cons_of_neg _ (by simpa using hqp)] at hfind
        exact ⟨hns, hfind⟩
    · rw [if_neg hq]
      rw [List.mem_cons, ih]
      constructor
      · rintro (rfl | ⟨hns, hfind⟩)
        · exact ⟨hq, by rw [List.find?_cons_of_pos _ (by simp)]⟩
        · have hns2 : p.1 ∉ seen := fun hmem => hns (List.mem_cons_of_mem _ hmem)
          have hqp : q.1 ≠ p.1 := by
            intro he
            exact hns (he ▸ List.mem_cons_self q.1 seen)
          rw [List.find?_cons_of_neg _ (by simpa using hqp)]
          exact ⟨hns2, hfind⟩
      · rintro ⟨hns, hfind⟩
        by_cases hqp : q.1 = p.1
        · left
          rw [List.find?_cons_of_pos _ (by simpa using hqp)] at hfind
          exact (Option.some.injEq _ _).mp hfind.symm
        · right
          rw [List.find?_cons_of_neg _ (by simpa using hqp)] at hfind
          refine ⟨?_, hfind⟩
          intro hmem
          rcases List.mem_cons.mp hmem with he | hmem2
          · exact hqp he.symm
          · exact hns hmem2

theorem nodup_drop_duplicates_aux (l : Series) :
    ∀ seen : List Nat,
      ((drop_duplicates_aux seen l).map Prod.fst).Nodup ∧
      ∀ d ∈ (drop_duplicates_aux seen l).map Prod.fst, d ∉ seen := by
  induction l with
  | nil =>
    intro seen
    simp [drop_duplicates_aux]
  | cons q rest ih =>
    intro seen
    rw [drop_duplicates_aux]
    by_cases hq : q.1 ∈ seen
    · rw [if_pos hq]
      exact ih seen
    · rw [if_neg hq]
      obtain ⟨hnodup, hnotin⟩ := ih (q.1 :: seen)
      refine ⟨?_, ?_⟩
      · rw [List.map_cons, List.nodup_cons]
        exact ⟨fun hmem => hnotin q.1 hmem (List.mem_cons_self q.1 seen), hnodup⟩
      · intro d hd
        rw [List.map_cons, List.mem_cons] at hd
        rcases hd with rfl | hd2
        · exact hq
        · exact fun hmem =>
            hnotin d hd2 (List.mem_cons_of_mem _ hmem)

theorem filterMap_length_isSome (obs : List (Option Nat × Option ℚ)) :
    (fred_series_rows obs).length =
      (obs.filter (fun p => p.1.isSome)).length := by
  induction obs with
  | nil => rfl
  | cons p rest ih =>
    obtain ⟨pd, pv⟩ := p
    cases pd with
    | some d =>
      rw [fred_series_rows, List.filterMap_cons] at *
      simpa [List.filter_cons] using ih
    | none =>
      rw [fred_series_rows, List.filterMap_cons] at *
      simpa [List.filter_cons] using ih

/-- C9 counterexample: `fred_series_df` keeps two observations dated alike —
the FRED normalizer performs no deduplication at all, so the claim that every
normalizer collapses equal dates to the first occurrence fails on it. -/
theorem C9_counterexample :
    ¬ ((fred_series_rows [(some 1, some 5), (some 1, some 7)]).map
        Prod.fst).Nodup := by
  decide

/-- C9 (amended): only the census normalizer deduplicates by date — keeping
the first occurrence in source order (its output has at most one observation
per date, sorted ascending, and a pair survives exactly when it is the first
occurrence of its date) — while the FRED normalizer keeps every observation
with a present date, duplicates included. -/
theorem C9_census_dedup_first (recs : Series) :
    ((census_normalize recs).map Prod.fst).Nodup ∧
    (census_normalize recs).Pairwise dateLE ∧
    (∀ p, p ∈ census_normalize recs ↔
      recs.find? (fun q => q.1 == p.1) = some p) ∧
    ∀ obs : List (Option Nat × Option ℚ),
      (fred_series_rows obs).length =
        (obs.filter (fun p => p.1.isSome)).length := by
  refine ⟨?_, sort_values_sorted _, ?_, filterMap_length_isSome⟩
  · rw [census_normalize]
    have hperm := (sort_values_perm (drop_duplicates_date recs)).map Prod.fst
    exact hperm.nodup_iff.mpr (nodup_drop_duplicates_aux recs []).1
  · intro p
    rw [census_normalize, (sort_values_perm (drop_duplicates_date recs)).mem_iff,
      drop_duplicates_date, mem_drop_duplicates_aux]
    simp

/-! ### Entrypoint guard (fred.py lines 73 and 518-523)

`FRED_API_KEY = os.getenv("FRED_API_KEY", "d8ba…be9")` falls back to a
hardcoded key only when the environment variable is *absent*; the `__main__`
guard then exits with status 1 when the resulting key is empty or whitespace
(`not FRED_API_KEY or not FRED_API_KEY.strip()`).  Environment values and
keys are modelled as `List Char` so that Python's `str.strip()` is the
executable two-sided whitespace trim. -/

def FRED_API_KEY_default : List Char := "d8ba72083bb7547c67856b5acb8b6be9".data

/-- `os.getenv(name, default)`: the variable's value when present, else the
default. -/
def os_getenv (env : Option (List Char)) (dflt : List Char) : List Char :=
  env.getD dflt

def FRED_API_KEY (env : Option (List Char)) : List Char :=
  os_getenv env FRED_API_KEY_default

/-- Python `str.strip()`. -/
def str_strip (s : List Char) : List Char :=
  ((s.dropWhile Char.isWhitespace).reverse.dropWhile Char.isWhitespace).reverse

/-- The `__main__` guard condition
`not FRED_API_KEY or not FRED_API_KEY.strip()` (fred.py line 520). -/
def entry_guard_fires (env : Option (List Char)) : Bool :=
  (FRED_API_KEY env).isEmpty || (str_strip (FRED_API_KEY env)).isEmpty

/-- C10 counterexample: the guard is reachable — an environment that sets
`FRED_API_KEY` to the empty string bypasses the fallback (which applies only
when the variable is absent) and makes the guard fire. -/
theorem C10_counterexample : entry_guard_fires (some []) = true := by
  decide

/-- C10 (amended): the hardcoded fallback makes the guard dead only when the
variable is absent; the guard fires exactly when the environment supplies a
present value that is empty or all-whitespace. -/
theorem C10_guard_reachable :
    entry_guard_fires none = false ∧
    entry_guard_fires (some []) = true ∧
    entry_guard_fires (some [' ']) = true ∧
    ∀ env : List Char, entry_guard_fires (some env) =
      (str_strip env).isEmpty := by
  refine ⟨by decide, by decide, by decide, ?_⟩
  intro env
  cases henv : env with
  | nil => decide
  | cons c cs =>
    rw [entry_guard_fires]
    have hkey : FRED_API_KEY (some (c :: cs)) = c :: cs := rfl
    rw [hkey]
    rw [List.isEmpty_cons]
    rw [Bool.false_or]

end ResearchMethods
